import Mathlib

/-!
Verification development for the signal-scoring and trend-aggregation core
of the money-radar pipeline.

The Python modules `signal_scoring.py`, `llm_signal_scoring.py`,
`score_signals.py` and `trends.py` are shallowly embedded: pure functions
become Lean functions, SQL statements become explicit computations over
lists of rows, Python/SQL floats and numerics become `ℚ`, timestamps become
integer day numbers (day 0 is a Monday), and fallible code returns `Option`.
-/

namespace MoneyRadar

/-! ## Character classes and Python string helpers -/

/-- Word character for the regex `\b` boundary (ASCII model of `\w`). -/
def isWordChar (c : Char) : Bool :=
  c.isAlpha || c.isDigit || c = '_'

/-- Whitespace for the regex `\s` class. -/
def isSpaceChar (c : Char) : Bool :=
  c = ' ' || c = '\t' || c = '\n' || c = '\r' || c = '\x0b' || c = '\x0c'

/-- Whitespace stripped by Python `str.strip()` (ASCII model). -/
def isPyWs (c : Char) : Bool :=
  c = ' ' || c = '\t' || c = '\n' || c = '\r' || c = '\x0b' || c = '\x0c'

/-- Python `str.strip()` on a character list. -/
def pyStripList (cs : List Char) : List Char :=
  ((cs.dropWhile isPyWs).reverse.dropWhile isPyWs).reverse

/-- Python `str.strip()`. -/
def pyStrip (s : String) : String :=
  String.mk (pyStripList s.data)

/-- ASCII lowercasing, modelling `re.IGNORECASE` by case-folding the subject. -/
def lowerList (cs : List Char) : List Char :=
  cs.map Char.toLower

/-! ## A small regex-token machine

The scorer's patterns use only literals, `\b`, `\s*`, `\s?`, `\d+`,
an optional decimal fraction `(?:\.\d+)?`, and alternation.  We embed each
pattern as a token list and give the token machine full (backtracking)
match semantics, so alternatives behave exactly as in `re`. -/

inductive RTok where
  | lit (c : Char)
  | wsStar
  | wsOpt
  | digits
  | fracOpt
  | bdry
deriving DecidableEq, Repr

/-- `\b`: position between a word character and a non-word character
(string edges count as non-word). -/
def atBdry (prev : Option Char) (next : Option Char) : Bool :=
  (match prev with | some c => isWordChar c | none => false)
    != (match next with | some c => isWordChar c | none => false)

/-- Fuel-indexed matcher (structural on the fuel so that it evaluates
inside the kernel).  Every recursive call strictly decreases
`ts.length + cs.length`, so fuel `ts.length + cs.length + 1` can never be
exhausted. -/
def matchToksF : ℕ → List RTok → Option Char → List Char → Bool
  | 0, _, _, _ => false
  | fuel + 1, toks, prev, cs =>
    match toks, cs with
    | [], _ => true
    | .lit _ :: _, [] => false
    | .lit c :: ts, x :: rest => x = c && matchToksF fuel ts (some x) rest
    | .wsStar :: ts, [] => matchToksF fuel ts prev []
    | .wsStar :: ts, x :: rest =>
      matchToksF fuel ts prev (x :: rest) ||
        (isSpaceChar x && matchToksF fuel (.wsStar :: ts) (some x) rest)
    | .wsOpt :: ts, [] => matchToksF fuel ts prev []
    | .wsOpt :: ts, x :: rest =>
      matchToksF fuel ts prev (x :: rest) ||
        (isSpaceChar x && matchToksF fuel ts (some x) rest)
    | .digits :: _, [] => false
    | .digits :: ts, x :: rest =>
      x.isDigit &&
        (matchToksF fuel ts (some x) rest || matchToksF fuel (.digits :: ts) (some x) rest)
    | .fracOpt :: ts, [] => matchToksF fuel ts prev []
    | .fracOpt :: ts, x :: rest =>
      matchToksF fuel ts prev (x :: rest) ||
        (x = '.' && matchToksF fuel (.digits :: ts) (some x) rest)
    | .bdry :: ts, cs => atBdry prev cs.head? && matchToksF fuel ts prev cs

/-- Match a token list at the current position.  `prev` is the character
just before the current position (`none` at the start of the subject). -/
def matchToks (ts : List RTok) (prev : Option Char) (cs : List Char) : Bool :=
  matchToksF (ts.length + cs.length + 1) ts prev cs

/-- Search for a match of the token list at any position. -/
def searchToks (ts : List RTok) : Option Char → List Char → Bool
  | prev, [] => matchToks ts prev []
  | prev, x :: rest => matchToks ts prev (x :: rest) || searchToks ts (some x) rest

/-- `re.search` over an alternation of token lists. -/
def regexSearch (alts : List (List RTok)) (cs : List Char) : Bool :=
  alts.any fun ts => searchToks ts none cs

/-- Literal characters of a phrase. -/
def litToks (s : String) : List RTok :=
  s.data.map RTok.lit

/-- A phrase wrapped in `\b ... \b`. -/
def word (s : String) : List RTok :=
  RTok.bdry :: litToks s ++ [RTok.bdry]

/-! ## signal_scoring.py : the RuleScorer -/

structure SignalResult where
  is_question : Bool
  asks_recommendation : Bool
  mentions_cost : Bool
  mentions_platform : Bool
  signal_score : ℚ
  detected_keywords : List String
deriving DecidableEq, Repr

/-- `\b(how|what|why|which|can i|should i)\b` (the interrogative pattern
inlined in `score_text`). -/
def questionAlts : List (List RTok) :=
  [word "how", word "what", word "why", word "which", word "can i", word "should i"]

/-- `_RECOMMEND_PAT`, with `recommendations?`, `(?:should|shall)` and
`(?:do|use)` alternations expanded into literal phrases. -/
def recommendAlts : List (List RTok) :=
  [word "anyone recommend", word "recommendation", word "recommendations",
   word "what should i do", word "what should i use",
   word "what shall i do", word "what shall i use",
   word "best platform", word "best broker", word "best bank", word "best card",
   word "which bank", word "which card", word "which platform", word "which broker",
   word "worth it"]

/-- `_COST_PAT`: `£\s?\d+`, `\b\d+(?:\.\d+)?%\b`, and the cost vocabulary
(`fees?` and `costs?` expanded). -/
def costAlts : List (List RTok) :=
  [[RTok.lit '£', RTok.wsOpt, RTok.digits],
   [RTok.bdry, RTok.digits, RTok.fracOpt, RTok.lit '%', RTok.bdry],
   word "apr", word "interest", word "fee", word "fees", word "cost", word "costs"]

/-- `_PLATFORM_PAT`: the UK platform gazetteer (`\s*` gaps kept; the inner
`\b` of `ii\b` kept alongside the group's outer `\b`). -/
def platformAlts : List (List RTok) :=
  [RTok.bdry :: litToks "trading" ++ [RTok.wsStar] ++ litToks "212" ++ [RTok.bdry],
   word "vanguard", word "hl", word "hargreaves", word "freetrade",
   RTok.bdry :: litToks "aj" ++ [RTok.wsStar] ++ litToks "bell" ++ [RTok.bdry],
   RTok.bdry :: litToks "ii" ++ [RTok.bdry, RTok.bdry],
   RTok.bdry :: litToks "interactive" ++ [RTok.wsStar] ++ litToks "investor" ++ [RTok.bdry],
   word "monzo", word "starling", word "revolut", word "barclays", word "lloyds",
   word "natwest", word "hsbc", word "amex",
   RTok.bdry :: litToks "american" ++ [RTok.wsStar] ++ litToks "express" ++ [RTok.bdry]]

/-- The all-false, score-0 result returned for null/empty input. -/
def emptySignalResult : SignalResult :=
  { is_question := false, asks_recommendation := false, mentions_cost := false,
    mentions_platform := false, signal_score := 0, detected_keywords := [] }

/-- The fixed-order keyword labels appended for each true flag. -/
def keywordsFromFlags (q r c p : Bool) : List String :=
  (if q then ["question"] else []) ++ (if r then ["recommendation"] else []) ++
    (if c then ["cost"] else []) ++ (if p then ["platform"] else [])

/-- The additive weighted score capped at 1, as computed at the end of
`score_text` (the `min(1.0, score)` cap written as a kernel-evaluable
conditional). -/
def additiveScore (q r c p : Bool) : ℚ :=
  let score := (if q then (0.35 : ℚ) else 0) + (if r then (0.35 : ℚ) else 0) +
    (if c then (0.2 : ℚ) else 0) + (if p then (0.2 : ℚ) else 0)
  if (1 : ℚ) ≤ score then 1 else score

lemma additiveScore_eq_min (q r c p : Bool) :
    additiveScore q r c p =
      min 1 ((if q then (0.35 : ℚ) else 0) + (if r then (0.35 : ℚ) else 0) +
        (if c then (0.2 : ℚ) else 0) + (if p then (0.2 : ℚ) else 0)) := by
  rw [additiveScore, min_def]

/-- `signal_scoring.score_text`.  `none` models Python `None`; the falsy
check `if not text` also catches the empty string. -/
def score_text (t : Option String) : SignalResult :=
  match t with
  | none => emptySignalResult
  | some s =>
    if s = "" then emptySignalResult
    else
      let norm := pyStripList s.data
      let cs := lowerList norm
      let q := norm.contains '?' || regexSearch questionAlts cs
      let r := regexSearch recommendAlts cs
      let c := regexSearch costAlts cs
      let p := regexSearch platformAlts cs
      { is_question := q, asks_recommendation := r, mentions_cost := c,
        mentions_platform := p,
        signal_score := additiveScore q r c p,
        detected_keywords := keywordsFromFlags q r c p }

/-! ## A model of Python JSON values

`json.loads` yields dicts, lists, strings, numbers, booleans and `None`.
Numbers are modelled exactly as rationals; the non-finite float constants
`NaN`/`Infinity`/`-Infinity` (which Python's `json` accepts) get their own
constructors since `ℚ` cannot represent them. -/

inductive PyNum where
  | rat (q : ℚ)
  | nan
  | inf
  | ninf
deriving DecidableEq, Repr

inductive Json where
  | null
  | bool (b : Bool)
  | num (n : PyNum)
  | str (s : String)
  | arr (xs : List Json)
  | obj (kvs : List (String × Json))

/-- Python truthiness of a parsed JSON value. -/
def truthy : Json → Bool
  | .null => false
  | .bool b => b
  | .num (.rat q) => q ≠ 0
  | .num _ => true
  | .str s => s ≠ ""
  | .arr xs => !xs.isEmpty
  | .obj kvs => !kvs.isEmpty

def commaSep : List String → String
  | [] => ""
  | [x] => x
  | x :: xs => x ++ ", " ++ commaSep xs

/-- Python's textual rendering of a number (integers exact; the textual
formatting of non-integer floats is approximated, which no claim relies on). -/
def pyNumStr : PyNum → String
  | .rat q => if q.den = 1 then toString q.num else toString q
  | .nan => "nan"
  | .inf => "inf"
  | .ninf => "-inf"

/-- Python `repr` of a parsed JSON value (string escaping inside `repr`
is approximated; only `str` below is exercised by the claims). -/
def pyRepr : Json → String
  | .null => "None"
  | .bool true => "True"
  | .bool false => "False"
  | .num n => pyNumStr n
  | .str s => "'" ++ s ++ "'"
  | .arr xs => "[" ++ commaSep (xs.attach.map fun x => pyRepr x.1) ++ "]"
  | .obj kvs =>
    "\x7b" ++
      commaSep (kvs.attach.map fun kv => "'" ++ kv.1.1 ++ "': " ++ pyRepr kv.1.2) ++
      "\x7d"
termination_by j => sizeOf j
decreasing_by
  all_goals simp_wf
  · have := List.sizeOf_lt_of_mem x.2
    omega
  · rcases kv with ⟨⟨a, b⟩, hm⟩
    have := List.sizeOf_lt_of_mem hm
    simp only [Prod.mk.sizeOf_spec] at this ⊢
    omega

/-- Python `str` of a parsed JSON value. -/
def pyStr : Json → String
  | .str s => s
  | j => pyRepr j

/-- Lookup in the dict built from a JSON object: duplicate keys follow
Python semantics (the last binding wins). -/
def pyGet (kvs : List (String × Json)) (k : String) : Option Json :=
  (kvs.reverse.find? fun kv => kv.1 = k).map (·.2)

/-! ## The JSON parser underlying `json.loads`

Fuel-indexed recursive-descent parser.  Every recursive call spends one
unit of fuel and every `pObj`/`pArr`/`pMembers`/`pElems`/nested `pVal`
call is preceded by at least one consumed character, so at most
`3 * n + 4` calls can occur on an input of `n` characters and the fuel
supplied by `parseTop` can never run out on a parse `json.loads` accepts. -/

def skipWs (cs : List Char) : List Char :=
  cs.dropWhile fun c => c = ' ' || c = '\t' || c = '\n' || c = '\r'

def escChar : Char → Option Char
  | '"' => some '"'
  | '\\' => some '\\'
  | '/' => some '/'
  | 'b' => some '\x08'
  | 'f' => some '\x0c'
  | 'n' => some '\n'
  | 'r' => some '\r'
  | 't' => some '\t'
  | _ => none

def hexVal (c : Char) : Option ℕ :=
  if c.isDigit then some (c.toNat - 48)
  else if 'a' ≤ c ∧ c ≤ 'f' then some (c.toNat - 87)
  else if 'A' ≤ c ∧ c ≤ 'F' then some (c.toNat - 55)
  else none

/-- Parse the body of a JSON string (after the opening quote), strict mode:
unescaped control characters are rejected. -/
def pString (acc : List Char) : List Char → Option (String × List Char)
  | [] => none
  | '"' :: rest => some (String.mk acc.reverse, rest)
  | '\\' :: 'u' :: a :: b :: c :: d :: rest2 =>
    match hexVal a, hexVal b, hexVal c, hexVal d with
    | some ha, some hb, some hc, some hd =>
      pString (Char.ofNat (((ha * 16 + hb) * 16 + hc) * 16 + hd) :: acc) rest2
    | _, _, _, _ => none
  | '\\' :: e :: rest2 =>
    match escChar e with
    | some c => pString (c :: acc) rest2
    | none => none
  | ['\\'] => none
  | c :: rest => if c.toNat < 32 then none else pString (c :: acc) rest

def digitsToNat (ds : List Char) : ℕ :=
  ds.foldl (fun n c => n * 10 + (c.toNat - 48)) 0

/-- Parse a JSON number (strict grammar: no leading zeros, a fraction or
exponent must carry at least one digit). -/
def pNumber (cs : List Char) : Option (ℚ × List Char) :=
  let (neg, cs1) := match cs with
    | '-' :: r => (true, r)
    | _ => (false, cs)
  let ipart := cs1.takeWhile Char.isDigit
  let rest1 := cs1.dropWhile Char.isDigit
  if ipart.isEmpty then none
  else if ipart.head? = some '0' ∧ 1 < ipart.length then none
  else
    let (fpart, rest2) := match rest1 with
      | '.' :: r => (r.takeWhile Char.isDigit, r.dropWhile Char.isDigit)
      | _ => ([], rest1)
    if rest1.head? = some '.' ∧ fpart.isEmpty then none
    else
      let mag : ℚ := (digitsToNat ipart : ℚ) +
        (digitsToNat fpart : ℚ) / ((10 : ℚ) ^ fpart.length)
      let withExp : Option (ℚ × List Char) := match rest2 with
        | 'e' :: r | 'E' :: r =>
          let (eneg, r1) := match r with
            | '-' :: r2 => (true, r2)
            | '+' :: r2 => (false, r2)
            | _ => (false, r)
          let epart := r1.takeWhile Char.isDigit
          if epart.isEmpty then none
          else
            let e : ℤ := if eneg then -(digitsToNat epart : ℤ) else (digitsToNat epart : ℤ)
            some (mag * (10 : ℚ) ^ e, r1.dropWhile Char.isDigit)
        | _ => some (mag, rest2)
      withExp.map fun (v, r) => (if neg then -v else v, r)

/-- Consume an exact literal prefix. -/
def dropPre : List Char → List Char → Option (List Char)
  | [], cs => some cs
  | p :: ps, c :: cs => if c = p then dropPre ps cs else none
  | _ :: _, [] => none

/-- The parser's control state: a value, the inside of an object or array
just after its opening bracket, or the member/element loop with the
accumulated contents. -/
inductive PMode where
  | val
  | objStart
  | members (acc : List (String × Json))
  | arrStart
  | elems (acc : List Json)

def pStep : ℕ → PMode → List Char → Option (Json × List Char)
  | 0, _, _ => none
  | fuel + 1, mode, cs =>
    match mode with
    | .val =>
      match skipWs cs with
      | [] => none
      | c :: rest =>
        if c = '\x7b' then pStep fuel .objStart rest
        else if c = '[' then pStep fuel .arrStart rest
        else if c = '"' then (pString [] rest).map fun (s, r) => (.str s, r)
        else
          match dropPre "true".data (c :: rest) with
          | some r => some (.bool true, r)
          | none =>
          match dropPre "false".data (c :: rest) with
          | some r => some (.bool false, r)
          | none =>
          match dropPre "null".data (c :: rest) with
          | some r => some (.null, r)
          | none =>
          match dropPre "NaN".data (c :: rest) with
          | some r => some (.num .nan, r)
          | none =>
          match dropPre "Infinity".data (c :: rest) with
          | some r => some (.num .inf, r)
          | none =>
          match dropPre "-Infinity".data (c :: rest) with
          | some r => some (.num .ninf, r)
          | none =>
            (pNumber (c :: rest)).map fun (q, r) => (.num (.rat q), r)
    | .objStart =>
      match skipWs cs with
      | '\x7d' :: rest => some (.obj [], rest)
      | _ => pStep fuel (.members []) cs
    | .members acc =>
      match skipWs cs with
      | '"' :: rest =>
        match pString [] rest with
        | none => none
        | some (k, r1) =>
          match skipWs r1 with
          | ':' :: r2 =>
            match pStep fuel .val r2 with
            | none => none
            | some (v, r3) =>
              match skipWs r3 with
              | ',' :: r4 => pStep fuel (.members (acc ++ [(k, v)])) r4
              | '\x7d' :: r4 => some (.obj (acc ++ [(k, v)]), r4)
              | _ => none
          | _ => none
      | _ => none
    | .arrStart =>
      match skipWs cs with
      | ']' :: rest => some (.arr [], rest)
      | _ => pStep fuel (.elems []) cs
    | .elems acc =>
      match pStep fuel .val cs with
      | none => none
      | some (v, r1) =>
        match skipWs r1 with
        | ',' :: r2 => pStep fuel (.elems (acc ++ [v])) r2
        | ']' :: r2 => some (.arr (acc ++ [v]), r2)
        | _ => none

/-- `json.loads`: a single JSON value with surrounding whitespace and
nothing else.  Each unit of fuel is spent on one parser step and at least
one character separates consecutive steps of the grammar, so `3·n + 4`
fuel can never be exhausted on an input `json.loads` accepts. -/
def parseTop (cs : List Char) : Option Json :=
  match pStep (3 * cs.length + 4) .val cs with
  | some (v, rest) => if skipWs rest = [] then some v else none
  | none => none

/-! ## llm_signal_scoring.py : response parsing and normalization -/

/-- One pass of `re.sub` with pattern `(three backticks)(?:json)?` under
`IGNORECASE`: remove each occurrence, preferring the longer `json` form. -/
def stripFences : List Char → List Char
  | '\x60' :: '\x60' :: '\x60' :: a :: b :: c :: d :: rest2 =>
    if [a.toLower, b.toLower, c.toLower, d.toLower] = ['j', 's', 'o', 'n'] then
      stripFences rest2
    else stripFences (a :: b :: c :: d :: rest2)
  | '\x60' :: '\x60' :: '\x60' :: rest => stripFences rest
  | c :: rest => c :: stripFences rest
  | [] => []

/-- The subsequent `.replace` of any remaining triple-backtick runs. -/
def replaceTriple : List Char → List Char
  | '\x60' :: '\x60' :: '\x60' :: rest => replaceTriple rest
  | c :: rest => c :: replaceTriple rest
  | [] => []

/-- Index of the last occurrence of `c`. -/
def lastIdxOf (cs : List Char) (c : Char) : Option ℕ :=
  (cs.reverse.findIdx? (· = c)).map fun k => cs.length - 1 - k

/-- `re.search(r"(openbrace).*(closebrace)", cleaned, re.DOTALL)`: the
leftmost match runs from the first `\x7b` that has some `\x7d` after it
(equivalently: before the last `\x7d`) greedily to that last `\x7d`. -/
def extractBraces (cs : List Char) : Option (List Char) :=
  match lastIdxOf cs '\x7d' with
  | none => none
  | some j =>
    match cs.findIdx? (· = '\x7b') with
    | none => none
    | some i => if i < j then some ((cs.drop i).take (j - i + 1)) else none

/-- `_extract_json`: strip, remove code fences, extract the brace-delimited
region, `json.loads` it.  Returns the key/value list of the parsed object
(`json.loads` of text that starts with `\x7b` can only yield an object). -/
def extract_json (response : String) : Option (List (String × Json)) :=
  if response = "" then none
  else
    let cleaned := pyStripList response.data
    let cleaned := replaceTriple (stripFences cleaned)
    match extractBraces cleaned with
    | none => none
    | some sub =>
      match parseTop sub with
      | some (.obj kvs) => some kvs
      | _ => none

/-- `_coerce_bool`. -/
def coerce_bool (v : Option Json) : Bool :=
  match v with
  | some (.bool b) => b
  | some (.num (.rat q)) => q ≠ 0
  | some (.num _) => true
  | some (.str s) => [ "true", "yes", "y", "1" ].contains (String.mk (lowerList (pyStripList s.data)))
  | _ => false

/-- A float value as Python sees it: a rational or a non-finite constant. -/
def pyLtZero : PyNum → Bool
  | .rat q => q < 0
  | .ninf => true
  | _ => false

def pyGtOne : PyNum → Bool
  | .rat q => 1 < q
  | .inf => true
  | _ => false

/-- Python `float(string)` (ASCII, no underscore separators). -/
def parseFloatLit (s : String) : Option PyNum :=
  let cs := lowerList (pyStripList s.data)
  let (neg, cs1) := match cs with
    | '-' :: r => (true, r)
    | '+' :: r => (false, r)
    | _ => (false, cs)
  if cs1 = "infinity".data ∨ cs1 = "inf".data then some (if neg then .ninf else .inf)
  else if cs1 = "nan".data then some .nan
  else
    let ipart := cs1.takeWhile Char.isDigit
    let rest1 := cs1.dropWhile Char.isDigit
    let (fpart, rest2) := match rest1 with
      | '.' :: r => (r.takeWhile Char.isDigit, r.dropWhile Char.isDigit)
      | _ => ([], rest1)
    if ipart.isEmpty ∧ fpart.isEmpty then none
    else
      let mag : ℚ := (digitsToNat ipart : ℚ) +
        (digitsToNat fpart : ℚ) / ((10 : ℚ) ^ fpart.length)
      let res : Option ℚ := match rest2 with
        | 'e' :: r =>
          let (eneg, r1) := match r with
            | '-' :: r2 => (true, r2)
            | '+' :: r2 => (false, r2)
            | _ => (false, r)
          let epart := r1.takeWhile Char.isDigit
          if epart.isEmpty ∨ !(r1.dropWhile Char.isDigit).isEmpty then none
          else
            some (mag * (10 : ℚ) ^ (if eneg then -(digitsToNat epart : ℤ) else (digitsToNat epart : ℤ)))
        | [] => some mag
        | _ => none
      res.map fun v => .rat (if neg then -v else v)

/-- Python `float(x)` on a value from a parsed JSON payload; `none` models
`TypeError`/`ValueError` (which the code catches). -/
def floatOfJson : Option Json → Option PyNum
  | some (.bool b) => some (.rat (if b then 1 else 0))
  | some (.num n) => some n
  | some (.str s) => parseFloatLit s
  | _ => none

def splitOnP (p : Char → Bool) : List Char → List (List Char)
  | [] => [[]]
  | c :: rest =>
    match splitOnP p rest with
    | [] => if p c then [[], []] else [[c]]
    | h :: t => if p c then [] :: h :: t else (c :: h) :: t

/-- The keyword list drawn from the payload (before flag synthesis):
strings are split on commas/newlines; lists keep truthy elements rendered
with `str`; anything else becomes the empty list. -/
def keywordsOf (data : List (String × Json)) : List String :=
  match pyGet data "detected_keywords" with
  | some (.str s) =>
    let parts := (splitOnP (fun c => c = ',' || c = '\n') s.data).map
      fun p => String.mk (pyStripList p)
    parts.filter (· ≠ "")
  | some (.arr xs) => (xs.filter truthy).map pyStr
  | _ => []

/-- Modelled from the spec: `score_from_flags` is imported from
`ukmppr.signal_scoring` (`llm_signal_scoring.py:11`) but its definition is
absent from the provided sources; per §4.1/§4.2 of the spec it recomputes
the score "from the flags using the same additive weights as RuleScorer"
(0.35, 0.35, 0.2, 0.2, capped at 1.0). -/
def score_from_flags (q r c p : Bool) : ℚ :=
  additiveScore q r c p

structure NormalizedPayload where
  is_question : Bool
  asks_recommendation : Bool
  mentions_cost : Bool
  mentions_platform : Bool
  signal_score : PyNum
  detected_keywords : List String
deriving DecidableEq, Repr

/-- `_normalize_payload`. -/
def normalize_payload (data : List (String × Json)) : NormalizedPayload :=
  let q := coerce_bool (pyGet data "is_question")
  let r := coerce_bool (pyGet data "asks_recommendation")
  let c := coerce_bool (pyGet data "mentions_cost")
  let p := coerce_bool (pyGet data "mentions_platform")
  let keywords := keywordsOf data
  let computed := score_from_flags q r c p
  let score : PyNum :=
    match floatOfJson (pyGet data "signal_score") with
    | none => .rat computed
    | some f => if pyLtZero f || pyGtOne f then .rat computed else f
  let keywords2 := if keywords = [] then keywordsFromFlags q r c p else keywords
  { is_question := q, asks_recommendation := r, mentions_cost := c,
    mentions_platform := p, signal_score := score, detected_keywords := keywords2 }

/-- The pydantic `LLMSignalResponse(**normalized)` validation:
`signal_score` must satisfy `ge=0.0, le=1.0` (non-finite floats fail). -/
def validate_response (n : NormalizedPayload) : Option SignalResult :=
  match n.signal_score with
  | .rat x =>
    if 0 ≤ x ∧ x ≤ 1 then
      some { is_question := n.is_question, asks_recommendation := n.asks_recommendation,
             mentions_cost := n.mentions_cost, mentions_platform := n.mentions_platform,
             signal_score := x, detected_keywords := n.detected_keywords }
    else none
  | _ => none

/-- The tail of `parse_llm_signal_response` after `_extract_json` (the
`if not payload` guard also rejects an empty parsed dict). -/
def afterExtract : Option (List (String × Json)) → Option SignalResult
  | none => none
  | some kvs => if kvs.isEmpty then none else validate_response (normalize_payload kvs)

/-- `parse_llm_signal_response`. -/
def parse_llm_signal_response (response : String) : Option SignalResult :=
  afterExtract (extract_json response)

def signalPromptPre : String :=
  "You are classifying a UK personal finance Reddit post/comment for pain-point signals.\n\nTEXT:\n"

def signalPromptTail : String :=
  "\n\nRespond with ONLY valid JSON in this exact format:\n\x7b\n  \"is_question\": true/false,\n  \"asks_recommendation\": true/false,\n  \"mentions_cost\": true/false,\n  \"mentions_platform\": true/false,\n  \"signal_score\": 0.0 to 1.0,\n  \"detected_keywords\": [\"short\", \"keywords\"]\n\x7d\n\nRules:\n- is_question: direct or implied question/seeking advice\n- asks_recommendation: asks for product/bank/broker/app recommendation or comparison\n- mentions_cost: mentions fees, interest rates, APR, prices, or costs\n- mentions_platform: names a bank/platform/broker/app/product\n- signal_score: higher for multiple signals (0.7+ for question+recommendation, ~0.5 for one strong signal)\n\nJSON response:"

/-- `SIGNAL_PROMPT.format(text=snippet)`. -/
def signal_prompt (snippet : String) : String :=
  signalPromptPre ++ snippet ++ signalPromptTail

/-- `score_text_llm`.  The provider chain (`call_llm` → Groq/Ollama with
retry/backoff) is modelled as an oracle `callLLM` from the prompt to an
optional raw response; `none` covers provider error, timeout and retry
exhaustion, all of which make `call_groq`/`call_ollama` return `None`. -/
def score_text_llm (callLLM : String → Option String) (max_chars : ℕ) :
    Option String → SignalResult
  | none => score_text none
  | some s =>
    if pyStrip s = "" then score_text (some s)
    else
      let snippet := pyStrip s
      let snippet := if max_chars < snippet.length then snippet.take max_chars ++ "..." else snippet
      let response := (callLLM (signal_prompt snippet)).getD ""
      match parse_llm_signal_response response with
      | some r => r
      | none => score_text (some s)

/-! ## score_signals.py : hybrid decision policy and the signals store -/

inductive Method where
  | rules
  | llm
  | hybrid
deriving DecidableEq, Repr

/-- `_score_text_with_method` (total over the `Method` enumeration; the
Python `ValueError` branch is unreachable for a typed `Method`).  The LLM
scorer is passed in so that invocation-independence can be stated. -/
def score_text_with_method (llmScore : Option String → SignalResult) (method : Method)
    (hybrid_min_score : ℚ) (text_body : Option String) : SignalResult :=
  match method with
  | .rules => score_text text_body
  | .llm => llmScore text_body
  | .hybrid =>
    let rule_result := score_text text_body
    if hybrid_min_score ≤ rule_result.signal_score ∨ rule_result.is_question = true
        ∨ rule_result.asks_recommendation = true then
      rule_result
    else llmScore text_body

/-- A row of the `signals` table (timestamps are integers). -/
structure SignalRow where
  content_type : String
  content_id : String
  post_id : String
  is_question : Bool
  asks_recommendation : Bool
  mentions_cost : Bool
  mentions_platform : Bool
  signal_score : ℚ
  detected_keywords : List String
  collected_at : ℤ
deriving DecidableEq, Repr

/-- Does a row carry the composite key `(content_type, content_id)`? -/
def isKeyRow (content_type content_id : String) (row : SignalRow) : Bool :=
  decide (row.content_type = content_type ∧ row.content_id = content_id)

/-- The `DO UPDATE SET` assignment of `_upsert_signal`: the four flags, the
score and the keywords from the new result, `collected_at = now()`;
`post_id` is not in the SET list and is untouched. -/
def updateRow (result : SignalResult) (now : ℤ) (row : SignalRow) : SignalRow :=
  { row with
    is_question := result.is_question,
    asks_recommendation := result.asks_recommendation,
    mentions_cost := result.mentions_cost,
    mentions_platform := result.mentions_platform,
    signal_score := result.signal_score,
    detected_keywords := result.detected_keywords,
    collected_at := now }

/-- `_upsert_signal`: INSERT .. ON CONFLICT (content_type, content_id) DO
UPDATE. -/
def upsert_signal (table : List SignalRow) (content_type content_id post_id : String)
    (result : SignalResult) (now : ℤ) : List SignalRow :=
  if table.any (isKeyRow content_type content_id) then
    table.map fun row =>
      if isKeyRow content_type content_id row then updateRow result now row else row
  else
    table ++ [{ content_type := content_type, content_id := content_id, post_id := post_id,
                is_question := result.is_question,
                asks_recommendation := result.asks_recommendation,
                mentions_cost := result.mentions_cost,
                mentions_platform := result.mentions_platform,
                signal_score := result.signal_score,
                detected_keywords := result.detected_keywords,
                collected_at := now }]

/-! ## trends.py : weekly trend aggregation

Timestamps are integer day numbers with day 0 a Monday, so
`date_trunc('week', t)` is `t - t mod 7` and `NOW() - INTERVAL 'w weeks'`
is `now - 7 * w`. -/

structure Post where
  post_id : String
  created_utc : ℤ
  score : Option ℤ
deriving DecidableEq, Repr

structure Membership where
  content_type : String
  content_id : String
  cluster_id : ℤ
deriving DecidableEq, Repr

structure Cluster where
  cluster_id : ℤ
  label : Option String
deriving DecidableEq, Repr

/-- `date_trunc('week', d)`: the Monday of the week containing `d`. -/
def weekStart (d : ℤ) : ℤ :=
  d - d.emod 7

/-- One row of the join `cluster_membership JOIN posts JOIN clusters
LEFT JOIN signals` restricted by the lookback window and
`cluster_id >= 0` (the `weekly_docs` FROM clause before grouping). -/
structure JoinedRow where
  week_start : ℤ
  cluster_id : ℤ
  cluster_label : Option String
  post_score : Option ℤ
  sig_score : ℚ
deriving DecidableEq, Repr

/-- The join of one membership row with `posts`, `clusters` and the
optional post signal, restricted by `content_type = 'post'`,
`cluster_id >= 0` and the lookback window. -/
def joinMembership (posts : List Post) (clusters : List Cluster)
    (signals : List SignalRow) (now : ℤ) (lookback_weeks : ℕ)
    (cm : Membership) : Option JoinedRow :=
  if cm.content_type = "post" ∧ (0 : ℤ) ≤ cm.cluster_id then
    match posts.find? fun p => p.post_id == cm.content_id,
          clusters.find? fun c => c.cluster_id == cm.cluster_id with
    | some p, some c =>
      if now - 7 * (lookback_weeks : ℤ) ≤ p.created_utc then
        some { week_start := weekStart p.created_utc, cluster_id := cm.cluster_id,
               cluster_label := c.label, post_score := p.score,
               sig_score :=
                 match signals.find? fun s =>
                     s.content_type == "post" && s.content_id == cm.content_id with
                 | some s => s.signal_score
                 | none => 0 }
      else none
    | _, _ => none
  else none

def eligibleRows (posts : List Post) (membership : List Membership)
    (clusters : List Cluster) (signals : List SignalRow) (now : ℤ)
    (lookback_weeks : ℕ) : List JoinedRow :=
  membership.filterMap (joinMembership posts clusters signals now lookback_weeks)

/-- One group of the `weekly_docs` CTE. -/
structure WeeklyDoc where
  week_start : ℤ
  cluster_id : ℤ
  cluster_label : Option String
  doc_count : ℕ
  signal_sum : ℚ
  avg_score : Option ℚ
deriving DecidableEq, Repr

/-- `GROUP BY week_start, cluster_id, cluster_label` with `COUNT(*)`,
`COALESCE(SUM(s.signal_score), 0)` and `AVG(p.score)` (SQL `AVG` skips
NULLs and is NULL on an all-NULL group). -/
def weeklyDocs (rows : List JoinedRow) : List WeeklyDoc :=
  let keys := (rows.map fun r => (r.week_start, r.cluster_id, r.cluster_label)).dedup
  keys.map fun k =>
    let g := rows.filter fun r => decide ((r.week_start, r.cluster_id, r.cluster_label) = k)
    { week_start := k.1, cluster_id := k.2.1, cluster_label := k.2.2,
      doc_count := g.length,
      signal_sum := (g.map fun r => r.sig_score).sum,
      avg_score :=
        let scores := g.filterMap fun r => r.post_score
        if scores.isEmpty then none
        else some ((scores.map fun z => (z : ℚ)).sum / (scores.length : ℚ)) }

/-- A row of `weekly_theme_stats`. -/
structure StatRow where
  week_start : ℤ
  cluster_id : ℤ
  cluster_label : Option String
  doc_count : ℕ
  signal_sum : ℚ
  avg_score : Option ℚ
  growth_pct : Option ℚ
deriving DecidableEq, Repr

/-- PostgreSQL `ROUND(x::numeric, 1)`: exact decimal rounding, ties away
from zero. -/
def sqlRound1 (x : ℚ) : ℚ :=
  (if 0 ≤ x then ((⌊x * 10 + 1 / 2⌋ : ℤ) : ℚ) else -((⌊-x * 10 + 1 / 2⌋ : ℤ) : ℚ)) / 10

/-- The `CASE` expression computing `growth_pct` from `doc_count` and the
lagged `prior_count`. -/
def growth_pct_of (doc_count : ℕ) (prior_count : Option ℕ) : Option ℚ :=
  match prior_count with
  | none => none
  | some 0 => none
  | some p => some (sqlRound1 (((doc_count : ℚ) - (p : ℚ)) / (p : ℚ) * 100))

/-- Insertion sort (`ORDER BY` only promises sortedness; a concrete
computable sort keeps the model executable). -/
def insertSorted (le : α → α → Bool) (x : α) : List α → List α
  | [] => [x]
  | y :: ys => if le x y then x :: y :: ys else y :: insertSorted le x ys

def sortBy (le : α → α → Bool) (l : List α) : List α :=
  l.foldr (insertSorted le) []

abbrev sortByWeek (l : List WeeklyDoc) : List WeeklyDoc :=
  sortBy (fun a b => decide (a.week_start ≤ b.week_start)) l

/-- One output row: the grouped fields plus the growth computed against
the lagged prior count. -/
def mkStat (r : WeeklyDoc) (prior_count : Option ℕ) : StatRow :=
  { week_start := r.week_start, cluster_id := r.cluster_id,
    cluster_label := r.cluster_label, doc_count := r.doc_count,
    signal_sum := r.signal_sum, avg_score := r.avg_score,
    growth_pct := growth_pct_of r.doc_count prior_count }

/-- `LAG(doc_count)` down one cluster's chronologically ordered rows: each
row is paired with the previous row's `doc_count` (`none` for the first
row of the partition). -/
def lagAux (prior_count : Option ℕ) : List WeeklyDoc → List StatRow
  | [] => []
  | r :: rest => mkStat r prior_count :: lagAux (some r.doc_count) rest

abbrev lagSeries (l : List WeeklyDoc) : List StatRow :=
  lagAux none l

/-- The full INSERT..SELECT of `compute_weekly_trends`: group, partition
by cluster, order by week, lag, compute growth. -/
def computeStats (posts : List Post) (membership : List Membership)
    (clusters : List Cluster) (signals : List SignalRow) (now : ℤ)
    (lookback_weeks : ℕ) : List StatRow :=
  let docs := weeklyDocs (eligibleRows posts membership clusters signals now lookback_weeks)
  ((docs.map fun r => r.cluster_id).dedup).flatMap fun cid =>
    lagSeries (sortByWeek (docs.filter fun r => decide (r.cluster_id = cid)))

structure TrendsDB where
  posts : List Post
  membership : List Membership
  clusters : List Cluster
  signals : List SignalRow
  weekly_theme_stats : List StatRow
deriving DecidableEq, Repr

structure TrendsResult where
  weeks_computed : ℕ
  rows_inserted : ℕ
deriving DecidableEq, Repr

/-- `compute_weekly_trends`: delete every `weekly_theme_stats` row, insert
the freshly computed rows, return the distinct-week count and the number
of inserted rows. -/
def compute_weekly_trends (db : TrendsDB) (now : ℤ) (lookback_weeks : ℕ) :
    TrendsDB × TrendsResult :=
  let cleared := { db with weekly_theme_stats := ([] : List StatRow) }
  let newRows := computeStats db.posts db.membership db.clusters db.signals now lookback_weeks
  let db2 := { cleared with weekly_theme_stats := cleared.weekly_theme_stats ++ newRows }
  (db2,
   { weeks_computed := ((db2.weekly_theme_stats.map fun r => r.week_start).dedup).length,
     rows_inserted := newRows.length })

/-! ### get_trending_themes -/

/-- Python `round(x, d)`: ties to even (exact model over `ℚ`). -/
def pyRound (d : ℕ) (x : ℚ) : ℚ :=
  let n := x * (10 : ℚ) ^ d
  let f := ⌊n⌋
  let r := n - (f : ℚ)
  (if r < 1 / 2 then (f : ℚ)
   else if 1 / 2 < r then (f : ℚ) + 1
   else if f.emod 2 = 0 then (f : ℚ) else (f : ℚ) + 1) / (10 : ℚ) ^ d

/-- One group of the `recent` CTE in `get_trending_themes`. -/
structure ThemeAgg where
  cluster_id : ℤ
  cluster_label : Option String
  total_docs : ℕ
  avg_signal : ℚ
  avg_growth : Option ℚ
deriving DecidableEq, Repr

def recentRows (stats : List StatRow) (now : ℤ) (weeks : ℕ) : List StatRow :=
  stats.filter fun r => decide (now - 7 * (weeks : ℤ) ≤ r.week_start)

/-- `GROUP BY cluster_id, cluster_label` over the window: `SUM(doc_count)`,
`AVG(signal_sum)`, and `AVG(growth_pct) FILTER (WHERE growth_pct IS NOT
NULL)`. -/
def themeAggs (stats : List StatRow) (now : ℤ) (weeks : ℕ) : List ThemeAgg :=
  let recent := recentRows stats now weeks
  let keys := (recent.map fun r => (r.cluster_id, r.cluster_label)).dedup
  keys.map fun k =>
    let g := recent.filter fun r => decide ((r.cluster_id, r.cluster_label) = k)
    let gs := g.filterMap fun r => r.growth_pct
    { cluster_id := k.1, cluster_label := k.2,
      total_docs := (g.map fun r => r.doc_count).sum,
      avg_signal := (g.map fun r => r.signal_sum).sum / (g.length : ℚ),
      avg_growth := if gs.isEmpty then none else some (gs.sum / (gs.length : ℚ)) }

/-- `COALESCE(avg_growth, 0) + total_docs * 0.5`. -/
def trendScore (a : ThemeAgg) : ℚ :=
  a.avg_growth.getD 0 + (a.total_docs : ℚ) * (1 / 2)

/-- The dict returned per row by the Python list comprehension. -/
structure ThemeRow where
  cluster_id : ℤ
  label : Option String
  total_docs : ℕ
  avg_signal : ℚ
  avg_growth : Option ℚ
  trend_score : ℚ
deriving DecidableEq, Repr

/-- `HAVING SUM(doc_count) >= min_docs` followed by `ORDER BY trend_score
DESC`. -/
def rankedThemes (stats : List StatRow) (now : ℤ) (weeks : ℕ) (min_docs : ℕ) :
    List ThemeAgg :=
  sortBy (fun a b => decide (trendScore b ≤ trendScore a))
    ((themeAggs stats now weeks).filter fun a => decide (min_docs ≤ a.total_docs))

/-- The Python per-row dict rendering, in which `round(r.avg_growth or 0,
1) if r.avg_growth else None` maps both NULL and exactly-zero averages to
`None`. -/
def renderTheme (a : ThemeAgg) : ThemeRow :=
  { cluster_id := a.cluster_id, label := a.cluster_label,
    total_docs := a.total_docs,
    avg_signal := pyRound 2 a.avg_signal,
    avg_growth :=
      match a.avg_growth with
      | none => none
      | some g => if g = 0 then none else some (pyRound 1 g),
    trend_score := pyRound 2 (trendScore a) }

/-- `get_trending_themes`: window, aggregate, filter, rank, `LIMIT`,
render. -/
def get_trending_themes (stats : List StatRow) (now : ℤ) (weeks : ℕ)
    (min_docs : ℕ) (limit : ℕ) : List ThemeRow :=
  ((rankedThemes stats now weeks min_docs).take limit).map renderTheme

/-! ## Helper lemmas about the rule scorer -/

lemma additiveScore_nonneg (q r c p : Bool) : 0 ≤ additiveScore q r c p := by
  cases q <;> cases r <;> cases c <;> cases p <;> norm_num [additiveScore]

lemma additiveScore_le_one (q r c p : Bool) : additiveScore q r c p ≤ 1 := by
  cases q <;> cases r <;> cases c <;> cases p <;> norm_num [additiveScore]

lemma additiveScore_eq_zero_iff (q r c p : Bool) :
    additiveScore q r c p = 0 ↔ q = false ∧ r = false ∧ c = false ∧ p = false := by
  cases q <;> cases r <;> cases c <;> cases p <;> norm_num [additiveScore]

lemma additiveScore_eq_one_iff (q r c p : Bool) :
    additiveScore q r c p = 1 ↔ q = true ∧ r = true ∧ c = true ∧ p = true := by
  cases q <;> cases r <;> cases c <;> cases p <;> norm_num [additiveScore]

/-- The score field of any `score_text` result is the additive weighted
score of that result's own flags. -/
lemma score_text_score_spec (t : Option String) :
    (score_text t).signal_score =
      additiveScore (score_text t).is_question (score_text t).asks_recommendation
        (score_text t).mentions_cost (score_text t).mentions_platform := by
  cases t with
  | none => norm_num [score_text, emptySignalResult, additiveScore]
  | some s =>
    by_cases hs : s = ""
    · subst hs
      norm_num [score_text, emptySignalResult, additiveScore]
    · simp only [score_text, if_neg hs]

lemma score_text_nonneg (t : Option String) : 0 ≤ (score_text t).signal_score := by
  rw [score_text_score_spec]
  exact additiveScore_nonneg _ _ _ _

lemma score_text_le_one (t : Option String) : (score_text t).signal_score ≤ 1 := by
  rw [score_text_score_spec]
  exact additiveScore_le_one _ _ _ _

/-- C2.  For every input (including null/empty, where all flags are false
and the sum is 0), the signal score is the additive weighted sum
0.35·is_question + 0.35·asks_recommendation + 0.2·mentions_cost +
0.2·mentions_platform capped at 1; consequently it lies in [0,1], is 0
iff all four flags are false, and is 1 iff all four flags are true. -/
theorem rule_score_additive_weighted_capped (t : Option String) :
    (score_text t).signal_score =
      min 1 ((if (score_text t).is_question then (0.35 : ℚ) else 0) +
        (if (score_text t).asks_recommendation then (0.35 : ℚ) else 0) +
        (if (score_text t).mentions_cost then (0.2 : ℚ) else 0) +
        (if (score_text t).mentions_platform then (0.2 : ℚ) else 0)) ∧
    0 ≤ (score_text t).signal_score ∧ (score_text t).signal_score ≤ 1 ∧
    ((score_text t).signal_score = 0 ↔
      (score_text t).is_question = false ∧ (score_text t).asks_recommendation = false ∧
        (score_text t).mentions_cost = false ∧ (score_text t).mentions_platform = false) ∧
    ((score_text t).signal_score = 1 ↔
      (score_text t).is_question = true ∧ (score_text t).asks_recommendation = true ∧
        (score_text t).mentions_cost = true ∧ (score_text t).mentions_platform = true) := by
  refine ⟨?_, score_text_nonneg t, score_text_le_one t, ?_, ?_⟩
  · rw [score_text_score_spec]
    exact additiveScore_eq_min _ _ _ _
  · rw [score_text_score_spec]
    exact additiveScore_eq_zero_iff _ _ _ _
  · rw [score_text_score_spec]
    exact additiveScore_eq_one_iff _ _ _ _

/-- C9.  Null input and every all-whitespace input yield the all-false,
score-0, empty-keyword result (`score_text` is total by construction). -/
theorem rule_scorer_blank_input_total :
    score_text none = emptySignalResult ∧
    ∀ s : String, (∀ c ∈ s.data, isPyWs c = true) → score_text (some s) = emptySignalResult := by
  refine ⟨rfl, fun s hws => ?_⟩
  have hdrop : s.data.dropWhile isPyWs = [] :=
    List.dropWhile_eq_nil_iff.mpr fun x hx => hws x hx
  have hstrip : pyStripList s.data = [] := by
    simp [pyStripList, hdrop]
  by_cases hs : s = ""
  · simp [score_text, hs]
  · simp only [score_text, if_neg hs, hstrip]
    have hq : (([] : List Char).contains '?' || regexSearch questionAlts (lowerList [])) = false := by
      decide
    have hr : regexSearch recommendAlts (lowerList []) = false := by decide
    have hc : regexSearch costAlts (lowerList []) = false := by decide
    have hp : regexSearch platformAlts (lowerList []) = false := by decide
    rw [hq, hr, hc, hp]
    norm_num [emptySignalResult, additiveScore, keywordsFromFlags]

/-- Closed witness for C9 at the concrete all-whitespace input. -/
theorem rule_scorer_blank_input_total_witness :
    (∀ c ∈ ("  " : String).data, isPyWs c = true) ∧
      score_text (some "  ") = emptySignalResult :=
  ⟨by decide, rule_scorer_blank_input_total.2 "  " (by decide)⟩

/-! ## C3 : the hybrid decision policy -/

/-- The cheap-path condition of the hybrid branch. -/
abbrev hybridCheap (text : Option String) (thr : ℚ) : Prop :=
  thr ≤ (score_text text).signal_score ∨ (score_text text).is_question = true ∨
    (score_text text).asks_recommendation = true

/-- C3.  The hybrid method always scores with the rules first; when the
rule score reaches the threshold or either of `is_question` /
`asks_recommendation` holds it returns the rule result unchanged and the
LLM scorer is never consulted (the result is independent of it), and
otherwise it returns the LLM classifier's result for the same text. -/
theorem hybrid_policy_cheap_path (text : Option String) (thr : ℚ) :
    (∀ f, hybridCheap text thr →
      score_text_with_method f Method.hybrid thr text = score_text text) ∧
    (∀ f g, hybridCheap text thr →
      score_text_with_method f Method.hybrid thr text =
        score_text_with_method g Method.hybrid thr text) ∧
    (∀ callLLM, ¬hybridCheap text thr →
      score_text_with_method (score_text_llm callLLM 1000) Method.hybrid thr text =
        score_text_llm callLLM 1000 text) := by
  refine ⟨fun f h => ?_, fun f g h => ?_, fun callLLM h => ?_⟩
  · simp only [score_text_with_method, if_pos h]
  · simp only [score_text_with_method, if_pos h]
  · simp only [score_text_with_method, if_neg h]

/-- Closed witness for C3: the spec's two benchmark inputs.  With
threshold 0.2 the question text takes the cheap path regardless of the
LLM scorer; with threshold 0.9 the low-signal text delegates to the LLM
path. -/
theorem hybrid_policy_cheap_path_witness :
    score_text_with_method (fun _ => emptySignalResult) Method.hybrid (1 / 5)
        (some "What's the best broker? £10 fee") =
      score_text (some "What's the best broker? £10 fee") ∧
    score_text_with_method (score_text_llm (fun _ => none) 1000) Method.hybrid (9 / 10)
        (some "I went for a walk today") =
      score_text_llm (fun _ => none) 1000 (some "I went for a walk today") :=
  by
  constructor
  · exact (hybrid_policy_cheap_path (some "What's the best broker? £10 fee") (1 / 5)).1
      (fun _ => emptySignalResult) (Or.inr (Or.inl (by decide)))
  · refine (hybrid_policy_cheap_path (some "I went for a walk today") (9 / 10)).2.2
      (fun _ => none) ?_
    intro h
    have hq : (score_text (some "I went for a walk today")).is_question = false := by decide
    have hr : (score_text (some "I went for a walk today")).asks_recommendation = false := by
      decide
    rcases h with h | h | h
    · have hc : (score_text (some "I went for a walk today")).mentions_cost = false := by decide
      have hp : (score_text (some "I went for a walk today")).mentions_platform = false := by
        decide
      have hsp := score_text_score_spec (some "I went for a walk today")
      rw [hq, hr, hc, hp] at hsp
      rw [hsp] at h
      norm_num [additiveScore] at h
    · simp [hq] at h
    · simp [hr] at h

/-! ## C4 / C5 : the LLM classifier -/

lemma validate_response_bounds {n : NormalizedPayload} {r : SignalResult}
    (h : validate_response n = some r) : 0 ≤ r.signal_score ∧ r.signal_score ≤ 1 := by
  obtain ⟨f1, f2, f3, f4, sc, kw⟩ := n
  cases sc with
  | rat x =>
    simp only [validate_response] at h
    split_ifs at h with hx
    · injection h with h2
      subst h2
      exact ⟨hx.1, hx.2⟩
  | nan => simp [validate_response] at h
  | inf => simp [validate_response] at h
  | ninf => simp [validate_response] at h

lemma parse_llm_signal_response_bounds {resp : String} {r : SignalResult}
    (h : parse_llm_signal_response resp = some r) :
    0 ≤ r.signal_score ∧ r.signal_score ≤ 1 := by
  unfold parse_llm_signal_response at h
  cases he : extract_json resp with
  | none =>
    rw [he] at h
    exact absurd h (by simp [afterExtract])
  | some kvs =>
    rw [he] at h
    simp only [afterExtract] at h
    by_cases hk : kvs.isEmpty
    · rw [if_pos hk] at h
      cases h
    · rw [if_neg hk] at h
      exact validate_response_bounds h

/-- C4.  For every provider oracle and every text, the classifier's result
has a signal score in [0,1]; and whenever the provider's response fails to
parse (provider `None`, timeout/exhausted retries, malformed JSON, missing
fields — everything `parse_llm_signal_response` rejects), the result is
exactly RuleScorer's result for the original untruncated text.  The
embedded function is total, modelling that the Python code never raises. -/
theorem llm_scorer_bounds_and_fallback (callLLM : String → Option String) (text : Option String) :
    (0 ≤ (score_text_llm callLLM 1000 text).signal_score ∧
      (score_text_llm callLLM 1000 text).signal_score ≤ 1) ∧
    ((∀ s, parse_llm_signal_response ((callLLM s).getD "") = none) →
      score_text_llm callLLM 1000 text = score_text text) := by
  constructor
  · cases text with
    | none => exact ⟨score_text_nonneg none, score_text_le_one none⟩
    | some s =>
      simp only [score_text_llm]
      by_cases hb : pyStrip s = ""
      · rw [if_pos hb]
        exact ⟨score_text_nonneg (some s), score_text_le_one (some s)⟩
      · rw [if_neg hb]
        cases hp : parse_llm_signal_response
            ((callLLM (signal_prompt
              (if 1000 < (pyStrip s).length then (pyStrip s).take 1000 ++ "..."
               else pyStrip s))).getD "") with
        | some r =>
          simp only [hp]
          exact parse_llm_signal_response_bounds hp
        | none =>
          simp only [hp]
          exact ⟨score_text_nonneg (some s), score_text_le_one (some s)⟩
  · intro hfail
    cases text with
    | none => rfl
    | some s =>
      simp only [score_text_llm]
      by_cases hb : pyStrip s = ""
      · rw [if_pos hb]
      · rw [if_neg hb, hfail]

/-- Closed witness for C4 at a provider that always answers `not json`. -/
theorem llm_scorer_bounds_and_fallback_witness :
    score_text_llm (fun _ => some "not json") 1000 (some "hi") = score_text (some "hi") :=
  (llm_scorer_bounds_and_fallback (fun _ => some "not json") (some "hi")).2 fun _ => by decide

/-- C5.  If the payload's `signal_score` does not coerce to a float, or
coerces to a float outside [0,1], the normalized score is recomputed from
the coerced flags with the RuleScorer weights; an absent
`detected_keywords` yields the empty pre-normalization keyword list, and
an empty keyword list is replaced by the flag-derived labels in the fixed
order question, recommendation, cost, platform. -/
theorem normalize_payload_score_and_keywords (data : List (String × Json)) :
    ((floatOfJson (pyGet data "signal_score") = none ∨
      (∃ x : ℚ, floatOfJson (pyGet data "signal_score") = some (.rat x) ∧ (x < 0 ∨ 1 < x))) →
      (normalize_payload data).signal_score =
        .rat (score_from_flags (normalize_payload data).is_question
          (normalize_payload data).asks_recommendation
          (normalize_payload data).mentions_cost
          (normalize_payload data).mentions_platform)) ∧
    (pyGet data "detected_keywords" = none → keywordsOf data = []) ∧
    (keywordsOf data = [] →
      (normalize_payload data).detected_keywords =
        (if (normalize_payload data).is_question then ["question"] else []) ++
          (if (normalize_payload data).asks_recommendation then ["recommendation"] else []) ++
          (if (normalize_payload data).mentions_cost then ["cost"] else []) ++
          (if (normalize_payload data).mentions_platform then ["platform"] else [])) := by
  refine ⟨fun hbad => ?_, fun habs => ?_, fun hkw => ?_⟩
  · rcases hbad with hnone | ⟨x, hx, hout⟩
    · simp [normalize_payload, hnone]
    · have hcond : (pyLtZero (PyNum.rat x) || pyGtOne (PyNum.rat x)) = true := by
        simp only [pyLtZero, pyGtOne, Bool.or_eq_true, decide_eq_true_eq]
        exact hout
      simp [normalize_payload, hx, hcond]
  · simp only [keywordsOf, habs]
  · simp only [normalize_payload, hkw]
    simp [keywordsFromFlags]

def c5data : List (String × Json) :=
  [("is_question", Json.bool true), ("signal_score", Json.num (.rat 5))]

/-- Closed witness for C5: an out-of-range provider score (5) with absent
keywords forces the recomputed score and the flag-derived keywords. -/
theorem normalize_payload_score_and_keywords_witness :
    (normalize_payload c5data).signal_score =
      .rat (score_from_flags (normalize_payload c5data).is_question
        (normalize_payload c5data).asks_recommendation
        (normalize_payload c5data).mentions_cost
        (normalize_payload c5data).mentions_platform) ∧
    keywordsOf c5data = [] ∧
    (normalize_payload c5data).detected_keywords =
      (if (normalize_payload c5data).is_question then ["question"] else []) ++
        (if (normalize_payload c5data).asks_recommendation then ["recommendation"] else []) ++
        (if (normalize_payload c5data).mentions_cost then ["cost"] else []) ++
        (if (normalize_payload c5data).mentions_platform then ["platform"] else []) :=
  ⟨(normalize_payload_score_and_keywords c5data).1
      (Or.inr ⟨5, rfl, Or.inr (by norm_num)⟩),
   rfl,
   (normalize_payload_score_and_keywords c5data).2.2 rfl⟩

/-! ## C7 : idempotence of the trend recompute -/

/-- C7.  A second `compute_weekly_trends` run over unchanged inputs at the
same reference time leaves the database — in particular the
`weekly_theme_stats` table — exactly as the first run left it, because
each run deletes the whole table and recomputes it from `posts`,
`cluster_membership`, `clusters` and `signals` alone. -/
theorem recompute_weekly_trends_idempotent (db : TrendsDB) (now : ℤ) (lookback_weeks : ℕ) :
    (compute_weekly_trends ((compute_weekly_trends db now lookback_weeks).1)
        now lookback_weeks).1.weekly_theme_stats =
      (compute_weekly_trends db now lookback_weeks).1.weekly_theme_stats ∧
    (compute_weekly_trends ((compute_weekly_trends db now lookback_weeks).1)
        now lookback_weeks).1 =
      (compute_weekly_trends db now lookback_weeks).1 :=
  ⟨rfl, rfl⟩

/-! ## C10 : only post-type memberships feed the trend table -/

lemma filterMap_filter_of_none {α β : Type} (p : α → Bool) (f : α → Option β)
    (hf : ∀ x, p x = false → f x = none) (l : List α) :
    (l.filter p).filterMap f = l.filterMap f := by
  induction l with
  | nil => rfl
  | cons x xs ih =>
    cases hpx : p x with
    | true => simp [List.filter_cons, hpx, List.filterMap_cons, ih]
    | false => simp [List.filter_cons, hpx, List.filterMap_cons, ih, hf x hpx]

lemma eligibleRows_posts_only (posts : List Post) (membership : List Membership)
    (clusters : List Cluster) (signals : List SignalRow) (now : ℤ) (lookback_weeks : ℕ) :
    eligibleRows posts (membership.filter fun cm => decide (cm.content_type = "post"))
        clusters signals now lookback_weeks =
      eligibleRows posts membership clusters signals now lookback_weeks := by
  unfold eligibleRows
  apply filterMap_filter_of_none
  intro cm hcm
  have hne : ¬cm.content_type = "post" := by simpa using hcm
  unfold joinMembership
  rw [if_neg]
  rintro ⟨h1, _⟩
  exact hne h1

/-- C10.  The weekly stats computed by the aggregation are unchanged if
every non-`post` membership row is dropped first: comment memberships
(no matter their cluster) never contribute to any `weekly_theme_stats`
row — the join demands `cm.content_type = 'post'` and a matching row of
`posts`, and the signal lookup is likewise restricted to post signals. -/
theorem trend_rows_from_posts_only (posts : List Post) (membership : List Membership)
    (clusters : List Cluster) (signals : List SignalRow) (now : ℤ) (lookback_weeks : ℕ) :
    computeStats posts (membership.filter fun cm => decide (cm.content_type = "post"))
        clusters signals now lookback_weeks =
      computeStats posts membership clusters signals now lookback_weeks := by
  unfold computeStats
  rw [eligibleRows_posts_only]

/-! ## C8 : last-write-wins upsert -/

lemma isKeyRow_updateRow (ct cid : String) (result : SignalResult) (now : ℤ)
    (row : SignalRow) : isKeyRow ct cid (updateRow result now row) = isKeyRow ct cid row :=
  rfl

lemma filter_not_key_map (ct cid : String) (result : SignalResult) (now : ℤ)
    (l : List SignalRow) :
    (l.map fun row => if isKeyRow ct cid row then updateRow result now row else row).filter
        (fun row => !isKeyRow ct cid row) =
      l.filter (fun row => !isKeyRow ct cid row) := by
  induction l with
  | nil => rfl
  | cons x xs ih =>
    cases hk : isKeyRow ct cid x with
    | true =>
      rw [List.map_cons, if_pos hk]
      simp [List.filter_cons, isKeyRow_updateRow, hk, ih]
    | false =>
      rw [List.map_cons, if_neg (by simp [hk])]
      simp [List.filter_cons, hk, ih]

lemma upsert_filter_not_key (table : List SignalRow) (ct cid pid : String)
    (result : SignalResult) (now : ℤ) :
    (upsert_signal table ct cid pid result now).filter (fun row => !isKeyRow ct cid row) =
      table.filter (fun row => !isKeyRow ct cid row) := by
  unfold upsert_signal
  by_cases hex : table.any (isKeyRow ct cid)
  · rw [if_pos hex]
    exact filter_not_key_map ct cid result now table
  · rw [if_neg hex]
    rw [List.filter_append]
    have : isKeyRow ct cid
        { content_type := ct, content_id := cid, post_id := pid,
          is_question := result.is_question,
          asks_recommendation := result.asks_recommendation,
          mentions_cost := result.mentions_cost,
          mentions_platform := result.mentions_platform,
          signal_score := result.signal_score,
          detected_keywords := result.detected_keywords,
          collected_at := now } = true := by
      simp [isKeyRow]
    simp [this]

lemma upsert_exists_key (table : List SignalRow) (ct cid pid : String)
    (result : SignalResult) (now : ℤ) :
    ∃ row ∈ upsert_signal table ct cid pid result now, isKeyRow ct cid row = true := by
  unfold upsert_signal
  by_cases hex : table.any (isKeyRow ct cid)
  · rw [if_pos hex]
    obtain ⟨x, hx, hkx⟩ := List.any_eq_true.mp hex
    refine ⟨updateRow result now x, ?_, by rw [isKeyRow_updateRow]; exact hkx⟩
    have : (if isKeyRow ct cid x then updateRow result now x else x) = updateRow result now x :=
      if_pos hkx
    rw [← this]
    exact List.mem_map_of_mem _ hx
  · rw [if_neg hex]
    refine ⟨_, List.mem_append_right _ (List.mem_singleton.mpr rfl), ?_⟩
    simp [isKeyRow]

lemma upsert_key_fields (table : List SignalRow) (ct cid pid : String)
    (result : SignalResult) (now : ℤ) (hex : table.any (isKeyRow ct cid) = true) :
    ∀ row ∈ upsert_signal table ct cid pid result now, isKeyRow ct cid row = true →
      row.is_question = result.is_question ∧
      row.asks_recommendation = result.asks_recommendation ∧
      row.mentions_cost = result.mentions_cost ∧
      row.mentions_platform = result.mentions_platform ∧
      row.signal_score = result.signal_score ∧
      row.detected_keywords = result.detected_keywords ∧
      row.collected_at = now := by
  unfold upsert_signal
  rw [if_pos hex]
  intro row hrow hkey
  obtain ⟨x, hx, hxr⟩ := List.mem_map.mp hrow
  cases hk : isKeyRow ct cid x with
  | true =>
    rw [if_pos hk] at hxr
    subst hxr
    exact ⟨rfl, rfl, rfl, rfl, rfl, rfl, rfl⟩
  | false =>
    rw [if_neg (by simp [hk])] at hxr
    subst hxr
    rw [hkey] at hk
    cases hk

/-- C8.  Two successive upserts with the same `(content_type, content_id)`
key leave exactly the second call's flags, score and keywords on every row
of that key, with `collected_at` refreshed to the second write; a row with
the key exists afterwards; and rows with any other key are exactly those
of the original table. -/
theorem upsert_signal_last_write_wins (table : List SignalRow) (ct cid pid1 pid2 : String)
    (r1 r2 : SignalResult) (t1 t2 : ℤ) :
    (∀ row ∈ upsert_signal (upsert_signal table ct cid pid1 r1 t1) ct cid pid2 r2 t2,
        isKeyRow ct cid row = true →
        row.is_question = r2.is_question ∧
        row.asks_recommendation = r2.asks_recommendation ∧
        row.mentions_cost = r2.mentions_cost ∧
        row.mentions_platform = r2.mentions_platform ∧
        row.signal_score = r2.signal_score ∧
        row.detected_keywords = r2.detected_keywords ∧
        row.collected_at = t2) ∧
    (∃ row ∈ upsert_signal (upsert_signal table ct cid pid1 r1 t1) ct cid pid2 r2 t2,
        isKeyRow ct cid row = true) ∧
    ((upsert_signal (upsert_signal table ct cid pid1 r1 t1) ct cid pid2 r2 t2).filter
        (fun row => !isKeyRow ct cid row) =
      table.filter (fun row => !isKeyRow ct cid row)) := by
  have hex1 : (upsert_signal table ct cid pid1 r1 t1).any (isKeyRow ct cid) = true := by
    obtain ⟨row, hrow, hkey⟩ := upsert_exists_key table ct cid pid1 r1 t1
    exact List.any_eq_true.mpr ⟨row, hrow, hkey⟩
  refine ⟨upsert_key_fields _ ct cid pid2 r2 t2 hex1, upsert_exists_key _ ct cid pid2 r2 t2, ?_⟩
  rw [upsert_filter_not_key, upsert_filter_not_key]

def exSecondResult : SignalResult :=
  { is_question := true, asks_recommendation := false, mentions_cost := true,
    mentions_platform := false, signal_score := 1 / 2,
    detected_keywords := ["question", "cost"] }

/-- Closed witness for C8: from an empty table, upserting the empty result
then `exSecondResult` for the key ("post", "x") leaves a row carrying the
second result's score with the refreshed timestamp, and no other rows. -/
theorem upsert_signal_last_write_wins_witness :
    (∃ row ∈ upsert_signal (upsert_signal [] "post" "x" "x" emptySignalResult 1)
        "post" "x" "x" exSecondResult 2,
      isKeyRow "post" "x" row = true ∧
        row.signal_score = exSecondResult.signal_score ∧ row.collected_at = 2) ∧
    ((upsert_signal (upsert_signal [] "post" "x" "x" emptySignalResult 1)
        "post" "x" "x" exSecondResult 2).filter
      (fun row => !isKeyRow "post" "x" row) = []) := by
  have h := upsert_signal_last_write_wins [] "post" "x" "x" "x" emptySignalResult
    exSecondResult 1 2
  obtain ⟨row, hrow, hkey⟩ := h.2.1
  have hf := h.1 row hrow hkey
  exact ⟨⟨row, hrow, hkey, hf.2.2.2.2.1, hf.2.2.2.2.2.2⟩, h.2.2⟩

/-! ## C1 : the week-over-week growth formula

Helper layer: sorting lemmas for `sortBy`, positional lemmas for the lag,
and the decomposition of `computeStats` into per-cluster chronological
segments. -/

lemma mem_insertSorted {α : Type} (le : α → α → Bool) (x a : α) (l : List α) :
    a ∈ insertSorted le x l ↔ a = x ∨ a ∈ l := by
  induction l with
  | nil => simp [insertSorted]
  | cons y ys ih =>
    simp only [insertSorted]
    by_cases h : le x y
    · rw [if_pos h]
      simp [List.mem_cons]
    · rw [if_neg h]
      simp only [List.mem_cons, ih]
      tauto

lemma perm_insertSorted {α : Type} (le : α → α → Bool) (x : α) (l : List α) :
    List.Perm (insertSorted le x l) (x :: l) := by
  induction l with
  | nil => exact List.Perm.refl _
  | cons y ys ih =>
    simp only [insertSorted]
    by_cases h : le x y
    · rw [if_pos h]
    · rw [if_neg h]
      exact (ih.cons y).trans (List.Perm.swap x y ys)

lemma perm_sortBy {α : Type} (le : α → α → Bool) (l : List α) :
    List.Perm (sortBy le l) l := by
  induction l with
  | nil => exact List.Perm.refl _
  | cons x xs ih =>
    exact (perm_insertSorted le x (sortBy le xs)).trans (ih.cons x)

lemma pairwise_insertSorted {α : Type} (le : α → α → Bool)
    (htot : ∀ a b, le a b = true ∨ le b a = true)
    (htrans : ∀ a b c, le a b = true → le b c = true → le a c = true)
    (x : α) (l : List α) (hl : l.Pairwise fun a b => le a b = true) :
    (insertSorted le x l).Pairwise fun a b => le a b = true := by
  induction l with
  | nil => simp [insertSorted]
  | cons y ys ih =>
    rcases List.pairwise_cons.mp hl with ⟨hy, hys⟩
    simp only [insertSorted]
    by_cases h : le x y
    · rw [if_pos h]
      refine List.pairwise_cons.mpr ⟨?_, hl⟩
      intro b hb
      rcases List.mem_cons.mp hb with rfl | hb
      · exact h
      · exact htrans x y b h (hy b hb)
    · rw [if_neg h]
      have hyx : le y x = true := (htot x y).resolve_left h
      refine List.pairwise_cons.mpr ⟨?_, ih hys⟩
      intro b hb
      rcases (mem_insertSorted le x b ys).mp hb with rfl | hb
      · exact hyx
      · exact hy b hb

lemma pairwise_sortBy {α : Type} (le : α → α → Bool)
    (htot : ∀ a b, le a b = true ∨ le b a = true)
    (htrans : ∀ a b c, le a b = true → le b c = true → le a c = true)
    (l : List α) : (sortBy le l).Pairwise fun a b => le a b = true := by
  induction l with
  | nil => simp [sortBy]
  | cons x xs ih => exact pairwise_insertSorted le htot htrans x _ ih

lemma lagAux_mem {l : List WeeklyDoc} {pr : Option ℕ} {row : StatRow}
    (h : row ∈ lagAux pr l) :
    ∃ a ∈ l, row.week_start = a.week_start ∧ row.cluster_id = a.cluster_id := by
  induction l generalizing pr with
  | nil => cases h
  | cons r rest ih =>
    rcases List.mem_cons.mp h with rfl | h2
    · exact ⟨r, List.mem_cons_self r rest, rfl, rfl⟩
    · obtain ⟨a, ha, hw, hc⟩ := ih h2
      exact ⟨a, List.mem_cons_of_mem _ ha, hw, hc⟩

lemma lagAux_pairwise_week {l : List WeeklyDoc} (pr : Option ℕ)
    (hl : l.Pairwise fun a b => a.week_start < b.week_start) :
    (lagAux pr l).Pairwise fun a b => a.week_start < b.week_start := by
  induction l generalizing pr with
  | nil => exact List.Pairwise.nil
  | cons r rest ih =>
    rcases List.pairwise_cons.mp hl with ⟨hr, hrest⟩
    refine List.pairwise_cons.mpr ⟨?_, ih _ hrest⟩
    intro b hb
    obtain ⟨a, ha, hw, _⟩ := lagAux_mem hb
    simpa [mkStat, hw] using hr a ha

lemma lagAux_head {l : List WeeklyDoc} {pr : Option ℕ} {r : StatRow}
    (h : (lagAux pr l)[0]? = some r) :
    r.growth_pct = growth_pct_of r.doc_count pr := by
  cases l with
  | nil => simp [lagAux] at h
  | cons a rest =>
    simp only [lagAux, List.getElem?_cons_zero] at h
    injection h with h
    rw [← h]
    rfl

lemma lagAux_succ {l : List WeeklyDoc} :
    ∀ {pr : Option ℕ} {i : ℕ} {r p : StatRow},
      (lagAux pr l)[i + 1]? = some r → (lagAux pr l)[i]? = some p →
      r.growth_pct = growth_pct_of r.doc_count (some p.doc_count) := by
  induction l with
  | nil =>
    intro pr i r p h1 _
    simp [lagAux] at h1
  | cons a rest ih =>
    intro pr i r p h1 h0
    cases i with
    | zero =>
      simp only [lagAux, List.getElem?_cons_succ, List.getElem?_cons_zero] at h1 h0
      injection h0 with h0
      have hr := lagAux_head h1
      rw [hr, ← h0]
      rfl
    | succ j =>
      simp only [lagAux, List.getElem?_cons_succ] at h1 h0
      exact ih h1 h0

/-- The denormalized label a cluster id resolves to through the `clusters`
table. -/
def labelOf (clusters : List Cluster) (cid : ℤ) : Option String :=
  match clusters.find? fun c => c.cluster_id == cid with
  | some c => c.label
  | none => none

lemma joinMembership_fields {posts : List Post} {clusters : List Cluster}
    {signals : List SignalRow} {now : ℤ} {lookback_weeks : ℕ}
    {cm : Membership} {row : JoinedRow}
    (h : joinMembership posts clusters signals now lookback_weeks cm = some row) :
    row.cluster_id = cm.cluster_id ∧ row.cluster_label = labelOf clusters cm.cluster_id := by
  unfold joinMembership at h
  split at h
  · split at h
    · split_ifs at h with hw
      injection h with h
      rw [← h]
      refine ⟨rfl, ?_⟩
      simp only [labelOf]
      rename_i hp hcl
      rw [hcl]
    · cases h
  · cases h

lemma eligibleRows_label (posts : List Post) (membership : List Membership)
    (clusters : List Cluster) (signals : List SignalRow) (now : ℤ) (lookback_weeks : ℕ) :
    ∀ row ∈ eligibleRows posts membership clusters signals now lookback_weeks,
      row.cluster_label = labelOf clusters row.cluster_id := by
  intro row hrow
  obtain ⟨cm, _, hj⟩ := List.mem_filterMap.mp hrow
  obtain ⟨h1, h2⟩ := joinMembership_fields hj
  rw [h2, h1]

/-- The grouping key of a group row. -/
def docTriple (r : WeeklyDoc) : ℤ × ℤ × Option String :=
  (r.week_start, r.cluster_id, r.cluster_label)

lemma weeklyDocs_triple_nodup (rows : List JoinedRow) :
    ((weeklyDocs rows).map docTriple).Nodup := by
  have heq : (weeklyDocs rows).map docTriple =
      ((rows.map fun r => (r.week_start, r.cluster_id, r.cluster_label)).dedup) := by
    unfold weeklyDocs
    rw [List.map_map]
    have h0 : (docTriple ∘ fun k : ℤ × ℤ × Option String =>
        ({ week_start := k.1, cluster_id := k.2.1, cluster_label := k.2.2,
           doc_count := (rows.filter fun r =>
             decide ((r.week_start, r.cluster_id, r.cluster_label) = k)).length,
           signal_sum := ((rows.filter fun r =>
             decide ((r.week_start, r.cluster_id, r.cluster_label) = k)).map
               fun r => r.sig_score).sum,
           avg_score :=
             let scores := (rows.filter fun r =>
               decide ((r.week_start, r.cluster_id, r.cluster_label) = k)).filterMap
                 fun r => r.post_score
             if scores.isEmpty then none
             else some ((scores.map fun z => (z : ℚ)).sum / (scores.length : ℚ)) } :
          WeeklyDoc)) = id := rfl
    rw [h0, List.map_id]
  rw [heq]
  exact List.nodup_dedup _

lemma weeklyDocs_label (clusters : List Cluster) (rows : List JoinedRow)
    (hrows : ∀ r ∈ rows, r.cluster_label = labelOf clusters r.cluster_id) :
    ∀ d ∈ weeklyDocs rows, d.cluster_label = labelOf clusters d.cluster_id := by
  intro d hd
  unfold weeklyDocs at hd
  obtain ⟨k, hk, hdk⟩ := List.mem_map.mp hd
  obtain ⟨r0, hr0, hkr⟩ := List.mem_map.mp (List.mem_dedup.mp hk)
  subst hdk
  subst hkr
  simpa using hrows r0 hr0

lemma clusterDocs_week_nodup (clusters : List Cluster) (rows : List JoinedRow)
    (hlab : ∀ r ∈ rows, r.cluster_label = labelOf clusters r.cluster_id) (cid : ℤ) :
    (((weeklyDocs rows).filter fun r => decide (r.cluster_id = cid)).map
      fun r => r.week_start).Nodup := by
  have htrip := weeklyDocs_triple_nodup rows
  have hlab2 := weeklyDocs_label clusters rows hlab
  apply List.Nodup.map_on
  · intro x hx y hy hxy
    have hx1 := List.mem_filter.mp hx
    have hy1 := List.mem_filter.mp hy
    have hxc : x.cluster_id = cid := by simpa using hx1.2
    have hyc : y.cluster_id = cid := by simpa using hy1.2
    apply List.inj_on_of_nodup_map htrip hx1.1 hy1.1
    have hxl : x.cluster_label = labelOf clusters cid := hxc ▸ hlab2 x hx1.1
    have hyl : y.cluster_label = labelOf clusters cid := hyc ▸ hlab2 y hy1.1
    simp [docTriple, hxy, hxc, hyc, hxl, hyl]
  · exact List.Nodup.filter _ (List.Nodup.of_map _ htrip)

lemma sorted_clusterDocs (clusters : List Cluster) (rows : List JoinedRow)
    (hlab : ∀ r ∈ rows, r.cluster_label = labelOf clusters r.cluster_id) (cid : ℤ) :
    (sortByWeek ((weeklyDocs rows).filter fun r => decide (r.cluster_id = cid))).Pairwise
      fun a b => a.week_start < b.week_start := by
  have hle := pairwise_sortBy (fun a b : WeeklyDoc => decide (a.week_start ≤ b.week_start))
    (fun a b => by
      rcases le_total a.week_start b.week_start with h | h
      · exact Or.inl (by simpa using h)
      · exact Or.inr (by simpa using h))
    (fun a b c hab hbc => by
      simp only [decide_eq_true_eq] at hab hbc ⊢
      exact le_trans hab hbc)
    ((weeklyDocs rows).filter fun r => decide (r.cluster_id = cid))
  have hperm := perm_sortBy (fun a b : WeeklyDoc => decide (a.week_start ≤ b.week_start))
    ((weeklyDocs rows).filter fun r => decide (r.cluster_id = cid))
  have hweeknd := clusterDocs_week_nodup clusters rows hlab cid
  have hweeknd2 : ((sortByWeek ((weeklyDocs rows).filter
      fun r => decide (r.cluster_id = cid))).map fun r => r.week_start).Nodup :=
    (List.Perm.nodup_iff (List.Perm.map _ hperm)).mpr hweeknd
  have hne := List.pairwise_map.mp hweeknd2
  exact (hle.and hne).imp fun hab => lt_of_le_of_ne (by simpa using hab.1) hab.2

lemma filter_flatMap_key {ids : List ℤ} (hnd : ids.Nodup) (g : ℤ → List StatRow)
    (hg : ∀ x, ∀ row ∈ g x, row.cluster_id = x) (cid : ℤ) :
    (ids.flatMap g).filter (fun r => decide (r.cluster_id = cid)) =
      if cid ∈ ids then g cid else [] := by
  induction ids with
  | nil => simp
  | cons x ids' ih =>
    rcases List.nodup_cons.mp hnd with ⟨hx, hnd'⟩
    rw [List.flatMap_cons, List.filter_append]
    by_cases hcx : cid = x
    · subst hcx
      rw [if_pos (List.mem_cons_self _ _)]
      have h1 : (g cid).filter (fun r => decide (r.cluster_id = cid)) = g cid :=
        List.filter_eq_self.mpr fun a ha => by simpa using hg cid a ha
      have h2 : (ids'.flatMap g).filter (fun r => decide (r.cluster_id = cid)) = [] := by
        rw [ih hnd', if_neg hx]
      rw [h1, h2, List.append_nil]
    · have h1 : (g x).filter (fun r => decide (r.cluster_id = cid)) = [] :=
        List.filter_eq_nil_iff.mpr fun a ha => by
          simp only [hg x a ha, decide_eq_true_eq]
          exact fun hh => hcx hh.symm
      rw [h1, List.nil_append, ih hnd']
      by_cases hmem : cid ∈ ids'
      · rw [if_pos hmem, if_pos (List.mem_cons_of_mem _ hmem)]
      · rw [if_neg hmem, if_neg (by simp [hcx, hmem])]

lemma growth_pct_of_some (d d' : ℕ) :
    growth_pct_of d (some d') =
      if d' = 0 then none
      else some (sqlRound1 (((d : ℚ) - (d' : ℚ)) / (d' : ℚ) * 100)) := by
  cases d' with
  | zero => rfl
  | succ n => simp [growth_pct_of]

/-- The weekly rows of one cluster, in table order. -/
def clusterSeries (posts : List Post) (membership : List Membership)
    (clusters : List Cluster) (signals : List SignalRow) (now : ℤ)
    (lookback_weeks : ℕ) (cid : ℤ) : List StatRow :=
  (computeStats posts membership clusters signals now lookback_weeks).filter
    fun r => decide (r.cluster_id = cid)

lemma clusterSeries_eq (posts : List Post) (membership : List Membership)
    (clusters : List Cluster) (signals : List SignalRow) (now : ℤ)
    (lookback_weeks : ℕ) (cid : ℤ) :
    clusterSeries posts membership clusters signals now lookback_weeks cid =
      if cid ∈ (((weeklyDocs (eligibleRows posts membership clusters signals now
          lookback_weeks)).map fun r => r.cluster_id).dedup) then
        lagSeries (sortByWeek ((weeklyDocs (eligibleRows posts membership clusters signals
          now lookback_weeks)).filter fun r => decide (r.cluster_id = cid)))
      else [] := by
  unfold clusterSeries computeStats
  apply filter_flatMap_key (List.nodup_dedup _)
  intro x row hrow
  obtain ⟨a, ha, _, hc⟩ := lagAux_mem hrow
  have ha2 : a ∈ (weeklyDocs (eligibleRows posts membership clusters signals now
      lookback_weeks)).filter fun r => decide (r.cluster_id = x) :=
    (perm_sortBy _ _).mem_iff.mp ha
  have := (List.mem_filter.mp ha2).2
  rw [hc]
  simpa using this

/-- C1.  Within each cluster the computed weekly rows are chronologically
ordered; the first row's growth is null; and each later row's growth is
null when the immediately preceding row (the cluster's previous week
present in the result set) has `doc_count` 0, and otherwise equals
`ROUND((doc_count - prior)/prior * 100, 1)`. -/
theorem weekly_growth_lag_formula (posts : List Post) (membership : List Membership)
    (clusters : List Cluster) (signals : List SignalRow) (now : ℤ)
    (lookback_weeks : ℕ) (cid : ℤ) :
    (clusterSeries posts membership clusters signals now lookback_weeks cid).Pairwise
      (fun a b => a.week_start < b.week_start) ∧
    (∀ g, ((clusterSeries posts membership clusters signals now lookback_weeks cid).map
        StatRow.growth_pct)[0]? = some g → g = none) ∧
    (∀ (i d d' : ℕ),
      ((clusterSeries posts membership clusters signals now lookback_weeks cid).map
        StatRow.doc_count)[i + 1]? = some d →
      ((clusterSeries posts membership clusters signals now lookback_weeks cid).map
        StatRow.doc_count)[i]? = some d' →
      ((clusterSeries posts membership clusters signals now lookback_weeks cid).map
        StatRow.growth_pct)[i + 1]? =
        some (if d' = 0 then none
          else some (sqlRound1 (((d : ℚ) - (d' : ℚ)) / (d' : ℚ) * 100)))) := by
  have hlab := eligibleRows_label posts membership clusters signals now lookback_weeks
  rw [clusterSeries_eq]
  by_cases hmem : cid ∈ (((weeklyDocs (eligibleRows posts membership clusters signals now
      lookback_weeks)).map fun r => r.cluster_id).dedup)
  · rw [if_pos hmem]
    refine ⟨lagAux_pairwise_week none (sorted_clusterDocs clusters _ hlab cid), ?_, ?_⟩
    · intro g hg0
      rw [List.getElem?_map] at hg0
      cases h0 : (lagSeries (sortByWeek ((weeklyDocs (eligibleRows posts membership clusters
          signals now lookback_weeks)).filter fun r => decide (r.cluster_id = cid))))[0]? with
      | none => simp [h0] at hg0
      | some r =>
        rw [h0] at hg0
        have hrg : r.growth_pct = g := by simpa using hg0
        rw [← hrg, lagAux_head h0]
        rfl
    · intro i d d' h1 h0
      rw [List.getElem?_map] at h1 h0 ⊢
      cases hr : (lagSeries (sortByWeek ((weeklyDocs (eligibleRows posts membership clusters
          signals now lookback_weeks)).filter fun r => decide (r.cluster_id = cid))))[i + 1]? with
      | none => simp [hr] at h1
      | some r =>
        cases hp : (lagSeries (sortByWeek ((weeklyDocs (eligibleRows posts membership clusters
            signals now lookback_weeks)).filter fun r => decide (r.cluster_id = cid))))[i]? with
        | none => simp [hp] at h0
        | some p =>
          have hd : r.doc_count = d := by
            rw [hr] at h1
            simpa using h1
          have hd' : p.doc_count = d' := by
            rw [hp] at h0
            simpa using h0
          have hgr := lagAux_succ hr hp
          simp only [Option.map_some']
          rw [hgr, hd, hd', growth_pct_of_some]
  · rw [if_neg hmem]
    refine ⟨List.Pairwise.nil, ?_, ?_⟩
    · intro g hg
      simp at hg
    · intro i d d' h1 _
      simp at h1

lemma sqlRound1_intCast (n : ℤ) : sqlRound1 ((n : ℚ)) = (n : ℚ) := by
  unfold sqlRound1
  have hhalf : ⌊(1 / 2 : ℚ)⌋ = 0 := by
    rw [Int.floor_eq_zero_iff]
    constructor <;> norm_num
  by_cases hn : (0 : ℚ) ≤ (n : ℚ)
  · rw [if_pos hn]
    have hfl : ⌊(n : ℚ) * 10 + 1 / 2⌋ = 10 * n := by
      have h10 : (n : ℚ) * 10 = ((10 * n : ℤ) : ℚ) := by push_cast; ring
      rw [h10, add_comm, Int.floor_add_int, hhalf]
      ring
    rw [hfl]
    push_cast
    ring
  · rw [if_neg hn]
    have hfl : ⌊-(n : ℚ) * 10 + 1 / 2⌋ = -(10 * n) := by
      have h10 : -(n : ℚ) * 10 = ((-(10 * n) : ℤ) : ℚ) := by push_cast; ring
      rw [h10, add_comm, Int.floor_add_int, hhalf]
      ring
    rw [hfl]
    push_cast
    ring

/-- The spec's synthetic scenario: 35 posts in one cluster with weekly
document counts 10, 5, 20 over three consecutive weeks. -/
def examplePosts : List Post :=
  (List.range 35).map fun i =>
    { post_id := String.mk [Char.ofNat (65 + i)],
      created_utc := if i < 10 then 0 else if i < 15 then 7 else 14,
      score := none }

def exampleMembership : List Membership :=
  (List.range 35).map fun i =>
    { content_type := "post", content_id := String.mk [Char.ofNat (65 + i)], cluster_id := 0 }

def exampleClusters : List Cluster :=
  [{ cluster_id := 0, label := some "theme" }]

/-- Closed witness for C1: doc counts [10, 5, 20] over three consecutive
weeks yield growth null, -50.0, 300.0. -/
theorem weekly_growth_lag_formula_witness :
    ((clusterSeries examplePosts exampleMembership exampleClusters [] 14 12 0).map
      StatRow.growth_pct)[0]? = some none ∧
    ((clusterSeries examplePosts exampleMembership exampleClusters [] 14 12 0).map
      StatRow.growth_pct)[1]? = some (some ((-50 : ℚ))) ∧
    ((clusterSeries examplePosts exampleMembership exampleClusters [] 14 12 0).map
      StatRow.growth_pct)[2]? = some (some ((300 : ℚ))) := by
  have h := weekly_growth_lag_formula examplePosts exampleMembership exampleClusters [] 14 12 0
  have hd0 : ((clusterSeries examplePosts exampleMembership exampleClusters [] 14 12 0).map
      StatRow.doc_count)[0]? = some 10 := by decide
  have hd1 : ((clusterSeries examplePosts exampleMembership exampleClusters [] 14 12 0).map
      StatRow.doc_count)[1]? = some 5 := by decide
  have hd2 : ((clusterSeries examplePosts exampleMembership exampleClusters [] 14 12 0).map
      StatRow.doc_count)[2]? = some 20 := by decide
  refine ⟨?_, ?_, ?_⟩
  · cases hG : ((clusterSeries examplePosts exampleMembership exampleClusters [] 14 12 0).map
        StatRow.growth_pct)[0]? with
    | none =>
      rw [List.getElem?_map] at hd0 hG
      cases hs : (clusterSeries examplePosts exampleMembership exampleClusters [] 14 12 0)[0]? with
      | none => simp [hs] at hd0
      | some r => simp [hs] at hG
    | some g => rw [h.2.1 g hG]
  · have hstep := h.2.2 0 5 10 hd1 hd0
    have h50 := sqlRound1_intCast (-50)
    norm_num at hstep h50
    rw [h50] at hstep
    obtain ⟨a, ha, hga⟩ := hstep
    rw [List.getElem?_map, ha, Option.map_some', hga]
  · have hstep := h.2.2 1 20 5 hd2 hd1
    have h300 := sqlRound1_intCast 300
    norm_num at hstep h300
    rw [h300] at hstep
    obtain ⟨a, ha, hga⟩ := hstep
    rw [List.getElem?_map, ha, Option.map_some', hga]

/-! ## C6 : trending-theme aggregation and ranking -/

/-- The recent weekly rows of one `(cluster_id, cluster_label)` group. -/
def clusterGroup (stats : List StatRow) (now : ℤ) (weeks : ℕ)
    (key : ℤ × Option String) : List StatRow :=
  (recentRows stats now weeks).filter fun r => decide ((r.cluster_id, r.cluster_label) = key)

/-- C6 (amended).  `get_trending_themes` returns at most `limit` rows; the
ranked aggregates are sorted by descending `trend_score`; every ranked
aggregate meets the `min_docs` bound and carries `total_docs` equal to the
sum of its group's doc counts, `avg_growth` equal to the mean of only the
non-null growth values (null when there are none), and `trend_score =
COALESCE(avg_growth, 0) + total_docs * 0.5`; and a rendered row reports
a null `avg_growth` exactly when the aggregate's `avg_growth` is null
**or exactly zero** (the Python falsy check maps a 0.0 mean to `None`). -/
theorem trending_themes_ranking (stats : List StatRow) (now : ℤ)
    (weeks min_docs limit : ℕ) :
    (get_trending_themes stats now weeks min_docs limit).length ≤ limit ∧
    (rankedThemes stats now weeks min_docs).Pairwise
      (fun a b => trendScore b ≤ trendScore a) ∧
    (∀ a ∈ rankedThemes stats now weeks min_docs,
      min_docs ≤ a.total_docs ∧
      a.total_docs = ((clusterGroup stats now weeks (a.cluster_id, a.cluster_label)).map
        fun r => r.doc_count).sum ∧
      a.avg_growth =
        (if ((clusterGroup stats now weeks (a.cluster_id, a.cluster_label)).filterMap
            fun r => r.growth_pct).isEmpty then none
         else some (((clusterGroup stats now weeks (a.cluster_id, a.cluster_label)).filterMap
              fun r => r.growth_pct).sum /
            ((((clusterGroup stats now weeks (a.cluster_id, a.cluster_label)).filterMap
              fun r => r.growth_pct).length : ℚ)))) ∧
      trendScore a = a.avg_growth.getD 0 + (a.total_docs : ℚ) * (1 / 2)) ∧
    (∀ a : ThemeAgg, (renderTheme a).avg_growth = none ↔
      (a.avg_growth = none ∨ a.avg_growth = some 0)) ∧
    get_trending_themes stats now weeks min_docs limit =
      ((rankedThemes stats now weeks min_docs).take limit).map renderTheme := by
  refine ⟨?_, ?_, ?_, ?_, rfl⟩
  · simp only [get_trending_themes, List.length_map, List.length_take]
    exact min_le_left _ _
  · have hp := pairwise_sortBy (fun a b : ThemeAgg => decide (trendScore b ≤ trendScore a))
      (fun a b => by
        rcases le_total (trendScore b) (trendScore a) with h | h
        · exact Or.inl (by simpa using h)
        · exact Or.inr (by simpa using h))
      (fun a b c hab hbc => by
        simp only [decide_eq_true_eq] at hab hbc ⊢
        exact le_trans hbc hab)
      ((themeAggs stats now weeks).filter fun a => decide (min_docs ≤ a.total_docs))
    exact hp.imp fun h => by simpa using h
  · intro a ha
    have ha2 : a ∈ (themeAggs stats now weeks).filter
        fun a => decide (min_docs ≤ a.total_docs) :=
      (perm_sortBy _ _).mem_iff.mp ha
    have hfil := List.mem_filter.mp ha2
    refine ⟨by simpa using hfil.2, ?_⟩
    have haT := hfil.1
    simp only [themeAggs] at haT
    obtain ⟨k, hk, hka⟩ := List.mem_map.mp haT
    rw [← hka]
    exact ⟨rfl, rfl, rfl⟩
  · intro a
    unfold renderTheme
    cases hg : a.avg_growth with
    | none => simp
    | some g =>
      by_cases hz : g = 0
      · subst hz
        simp
      · simp [hz]

/-- A one-row `weekly_theme_stats` table whose only recent row has a
computable growth of exactly 0. -/
def exTrendStats : List StatRow :=
  [{ week_start := 0, cluster_id := 3, cluster_label := some "t", doc_count := 5,
     signal_sum := 2, avg_score := none, growth_pct := some 0 }]

/-- Counterexample to C6 as stated: the cluster has a week with a
computable (non-null) growth value, namely 0.0, yet `get_trending_themes`
reports its `avg_growth` as null — the claim's "null exactly when no week
had a computable growth value" fails on the Python falsy rendering. -/
theorem trending_zero_growth_reported_null :
    ((get_trending_themes exTrendStats 0 4 1 10).map
      fun r => (r.cluster_id, r.total_docs, r.avg_growth)) = [(3, 5, none)] ∧
    (recentRows exTrendStats 0 4).filterMap (fun r => r.growth_pct) = [(0 : ℚ)] := by
  constructor
  · have hmean : (((0 : ℚ)) + 0) / ((1 : ℕ) : ℚ) = 0 := by norm_num
    simp [get_trending_themes, rankedThemes, themeAggs, recentRows, renderTheme,
      exTrendStats, sortBy, insertSorted, clusterGroup, List.filter, List.filterMap,
      List.dedup, hmean]
  · rfl

/-- Closed witness for the amended C6 at the concrete one-row table. -/
theorem trending_themes_ranking_witness :
    (get_trending_themes exTrendStats 0 4 1 10).length ≤ 10 ∧
    (renderTheme ⟨3, some "t", 5, 2, some 0⟩).avg_growth = none ∧
    (rankedThemes exTrendStats 0 4 1).all (fun a => decide (1 ≤ a.total_docs)) = true := by
  have h := trending_themes_ranking exTrendStats 0 4 1 10
  refine ⟨h.1, ?_, ?_⟩
  · exact (h.2.2.2.1 ⟨3, some "t", 5, 2, some 0⟩).mpr (Or.inr rfl)
  · exact List.all_eq_true.mpr fun a haMem => by
      simpa using (h.2.2.1 a haMem).1

end MoneyRadar
